import Mathlib

/-!
Verification of the merge-and-question-answering pipeline of the
invoice-analysis repository (app_v1.py, app_v4.py, app_v7.py,
sistema_analise_dados_crewai.py).

The Python source is shallowly embedded: pure functions become Lean
functions on lists and strings, pandas tables become an explicit
record of column names and rows, the process-global interpreter state
(sys.stdout, the class-level DataFrame cache) becomes explicit state
passing, and calls into external collaborators (the LLM, json.loads,
exec of a generated fragment, the file system) become parameters of
the embedded functions.  Machine floats of the source are modelled
exactly for what the pipeline handles: finite decimal literals as
mantissa-exponent pairs, plus the nan and inf spellings; every claim
under study concerns parse success, null propagation or field
population, never rounding.
-/

set_option autoImplicit false

universe u v w

/-! ### Generic helpers -/

/-- A successful lookup in an association list returns one of the stored
values.  Used to transport facts about a finite table of pairs to the
result of a lookup. -/
theorem lookup_mem_snd {α : Type u} {β : Type v} [BEq α] [LawfulBEq α]
    (a : α) (b : β) : ∀ (l : List (α × β)), l.lookup a = some b → b ∈ l.map Prod.snd := by
  intro l
  induction l with
  | nil => intro h; simp [List.lookup] at h
  | cons p l ih =>
    intro h
    by_cases hval : a == p.1
    · simp [List.lookup, hval] at h
      subst h
      simp
    · simp [List.lookup, hval] at h
      simpa using Or.inr (ih h)

/-- A successful lookup in an association list is a stored binding. -/
theorem lookup_mem_pair {α : Type u} {β : Type v} [BEq α] [LawfulBEq α]
    (a : α) (b : β) : ∀ (l : List (α × β)), l.lookup a = some b → (a, b) ∈ l := by
  intro l
  induction l with
  | nil => intro h; simp [List.lookup] at h
  | cons p l ih =>
    obtain ⟨x, y⟩ := p
    intro h
    by_cases hval : a == x
    · simp [List.lookup, hval] at h
      have ha : a = x := by simpa using hval
      subst h
      subst ha
      exact List.mem_cons_self _ _
    · simp [List.lookup, hval] at h
      exact List.mem_cons_of_mem _ (ih h)

/-! ### Encoding & Schema Normalizer: column-label cleanup

`BaseDataProcessor._normalizar_nomes_colunas` in
sistema_analise_dados_crewai.py performs, per column label:

  1. `unicodedata.normalize("NFD", col).encode("ascii", "ignore")` —
     decompose accented letters and drop every non-ASCII code point;
  2. `re.sub` removing every character that is not a word character,
     whitespace or a hyphen;
  3. whitespace-run collapse via split + single-space join.

Step 1 is embedded as a per-character fold: ASCII characters are kept
unchanged; accented Latin letters decompose under NFD into their base
letter followed by a combining mark, of which only the ASCII base
letter survives the ascii/ignore encoding (tabulated below for the
Latin-1 accented range the data uses); any other non-ASCII character
yields nothing. -/

/-- Base letters of NFD-decomposable accented Latin letters: the ASCII
residue of normalize NFD + encode ascii ignore. -/
def accentBaseTable : List (Char × Char) :=
  [(Char.ofNat 0xE1, 'a'), (Char.ofNat 0xE0, 'a'), (Char.ofNat 0xE2, 'a'),
   (Char.ofNat 0xE3, 'a'), (Char.ofNat 0xE4, 'a'), (Char.ofNat 0xE5, 'a'),
   (Char.ofNat 0xE9, 'e'), (Char.ofNat 0xE8, 'e'), (Char.ofNat 0xEA, 'e'),
   (Char.ofNat 0xEB, 'e'),
   (Char.ofNat 0xED, 'i'), (Char.ofNat 0xEC, 'i'), (Char.ofNat 0xEE, 'i'),
   (Char.ofNat 0xEF, 'i'),
   (Char.ofNat 0xF3, 'o'), (Char.ofNat 0xF2, 'o'), (Char.ofNat 0xF4, 'o'),
   (Char.ofNat 0xF5, 'o'), (Char.ofNat 0xF6, 'o'),
   (Char.ofNat 0xFA, 'u'), (Char.ofNat 0xF9, 'u'), (Char.ofNat 0xFB, 'u'),
   (Char.ofNat 0xFC, 'u'),
   (Char.ofNat 0xE7, 'c'), (Char.ofNat 0xF1, 'n'), (Char.ofNat 0xFD, 'y'),
   (Char.ofNat 0xC1, 'A'), (Char.ofNat 0xC0, 'A'), (Char.ofNat 0xC2, 'A'),
   (Char.ofNat 0xC3, 'A'), (Char.ofNat 0xC4, 'A'), (Char.ofNat 0xC5, 'A'),
   (Char.ofNat 0xC9, 'E'), (Char.ofNat 0xC8, 'E'), (Char.ofNat 0xCA, 'E'),
   (Char.ofNat 0xCB, 'E'),
   (Char.ofNat 0xCD, 'I'), (Char.ofNat 0xCC, 'I'), (Char.ofNat 0xCE, 'I'),
   (Char.ofNat 0xCF, 'I'),
   (Char.ofNat 0xD3, 'O'), (Char.ofNat 0xD2, 'O'), (Char.ofNat 0xD4, 'O'),
   (Char.ofNat 0xD5, 'O'), (Char.ofNat 0xD6, 'O'),
   (Char.ofNat 0xDA, 'U'), (Char.ofNat 0xD9, 'U'), (Char.ofNat 0xDB, 'U'),
   (Char.ofNat 0xDC, 'U'),
   (Char.ofNat 0xC7, 'C'), (Char.ofNat 0xD1, 'N'), (Char.ofNat 0xDD, 'Y')]

/-- Per-character effect of normalize NFD followed by encode ascii ignore:
ASCII survives unchanged, tabulated accented letters leave their base
letter, every other non-ASCII character is dropped. -/
def nfdAsciiChar (c : Char) : List Char :=
  if c.toNat < 128 then [c]
  else
    match accentBaseTable.lookup c with
    | some b => [b]
    | none => []

/-- Whitespace in the sense of the regex class and of str.split:
space, tab, newline, carriage return, vertical tab, form feed. -/
def isPySpace (c : Char) : Bool :=
  c = ' ' || c = '\t' || c = '\n' || c = '\r' || c = Char.ofNat 0x0B || c = Char.ofNat 0x0C

/-- A character kept by the cleanup regex (the complement of the deleted
class): word characters, whitespace, hyphen.  Applied to ASCII-only
input, where a word character is a Latin letter, a digit or an
underscore. -/
def keepChar (c : Char) : Bool :=
  c.isAlphanum || c = '_' || isPySpace c || c = '-'

/-- str.split with no separator: split on whitespace runs and drop empty
pieces.  The accumulator carries the current word reversed. -/
def wordsAux : List Char → List Char → List (List Char)
  | [], acc => if acc.isEmpty then [] else [acc.reverse]
  | c :: cs, acc =>
    if isPySpace c then
      if acc.isEmpty then wordsAux cs [] else acc.reverse :: wordsAux cs []
    else
      wordsAux cs (c :: acc)

/-- str.split with no separator. -/
def pyWords (l : List Char) : List (List Char) := wordsAux l []

/-- The tail of a single-space join: each further word is preceded by one
space. -/
def joinRest : List (List Char) → List Char
  | [] => []
  | w :: ws => ' ' :: (w ++ joinRest ws)

/-- A single-space join of a word list. -/
def joinWords : List (List Char) → List Char
  | [] => []
  | w :: ws => w ++ joinRest ws

/-- Column-label cleanup of BaseDataProcessor._normalizar_nomes_colunas,
on the character list of one label: strip diacritics and non-ASCII,
delete characters outside the kept class, collapse whitespace runs to
single spaces. -/
def normalizarRotulo (l : List Char) : List Char :=
  joinWords (pyWords ((l.flatMap nfdAsciiChar).filter keepChar))

/-- The cleanup applied to every column label of a table, as
_normalizar_nomes_colunas does to df.columns. -/
def normalizarNomesColunas (cols : List (List Char)) : List (List Char) :=
  cols.map normalizarRotulo

/-! ### Idempotence of the label cleanup -/

/-- Every character the diacritic-stripping step emits is ASCII. -/
theorem nfdAsciiChar_ascii (c d : Char) (h : d ∈ nfdAsciiChar c) : d.toNat < 128 := by
  unfold nfdAsciiChar at h
  by_cases hc : c.toNat < 128
  · simp [hc] at h
    subst h
    exact hc
  · simp [hc] at h
    cases hl : accentBaseTable.lookup c with
    | none => simp [hl] at h
    | some b =>
      simp [hl] at h
      have hmem : b ∈ accentBaseTable.map Prod.snd := lookup_mem_snd c b _ hl
      have hall : ∀ x ∈ accentBaseTable.map Prod.snd, x.toNat < 128 := by decide
      rw [h]
      exact hall b hmem

/-- The diacritic-stripping step keeps an ASCII character unchanged. -/
theorem nfdAsciiChar_of_ascii (c : Char) (h : c.toNat < 128) : nfdAsciiChar c = [c] := by
  unfold nfdAsciiChar
  simp [h]

/-- On an all-ASCII character list the diacritic-stripping pass is the
identity. -/
theorem flatMap_nfdAsciiChar_of_ascii :
    ∀ (m : List Char), (∀ c ∈ m, c.toNat < 128) → m.flatMap nfdAsciiChar = m := by
  intro m
  induction m with
  | nil => intro _; rfl
  | cons c cs ih =>
    intro h
    have hc := h c (List.mem_cons_self c cs)
    have hcs : ∀ x ∈ cs, x.toNat < 128 := fun x hx => h x (List.mem_cons_of_mem c hx)
    simp [List.flatMap_cons, nfdAsciiChar_of_ascii c hc, ih hcs]

/-- Splitting never produces an empty word, words contain no whitespace,
and every character of a word comes from the input or the accumulator. -/
theorem wordsAux_mem_props :
    ∀ (l acc : List Char), (∀ c ∈ acc, isPySpace c = false) →
      ∀ w ∈ wordsAux l acc, w ≠ [] ∧ ∀ c ∈ w, isPySpace c = false ∧ (c ∈ l ∨ c ∈ acc) := by
  intro l
  induction l with
  | nil =>
    intro acc hacc w hw
    cases acc with
    | nil => simp [wordsAux] at hw
    | cons a as =>
      have heq : wordsAux [] (a :: as) = [(a :: as).reverse] := rfl
      rw [heq, List.mem_singleton] at hw
      subst hw
      refine ⟨by simp, ?_⟩
      intro c hc
      rw [List.mem_reverse] at hc
      exact ⟨hacc c hc, Or.inr hc⟩
  | cons x xs ih =>
    intro acc hacc w hw
    by_cases hx : isPySpace x = true
    · cases acc with
      | nil =>
        have heq : wordsAux (x :: xs) [] = wordsAux xs [] := by
          simp [wordsAux, hx]
        rw [heq] at hw
        have := ih [] (by intro c hc; simp at hc) w hw
        refine ⟨this.1, ?_⟩
        intro c hc
        have hprop := this.2 c hc
        refine ⟨hprop.1, ?_⟩
        rcases hprop.2 with hcl | hca
        · exact Or.inl (List.mem_cons_of_mem x hcl)
        · simp at hca
      | cons a as =>
        have heq : wordsAux (x :: xs) (a :: as) = (a :: as).reverse :: wordsAux xs [] := by
          simp [wordsAux, hx]
        rw [heq, List.mem_cons] at hw
        rcases hw with hw | hw
        · subst hw
          refine ⟨by simp, ?_⟩
          intro c hc
          rw [List.mem_reverse] at hc
          exact ⟨hacc c hc, Or.inr hc⟩
        · have := ih [] (by intro c hc; simp at hc) w hw
          refine ⟨this.1, ?_⟩
          intro c hc
          have hprop := this.2 c hc
          refine ⟨hprop.1, ?_⟩
          rcases hprop.2 with hcl | hca
          · exact Or.inl (List.mem_cons_of_mem x hcl)
          · simp at hca
    · rw [Bool.not_eq_true] at hx
      have heq : wordsAux (x :: xs) acc = wordsAux xs (x :: acc) := by
        simp [wordsAux, hx]
      rw [heq] at hw
      have hacc2 : ∀ c ∈ x :: acc, isPySpace c = false := by
        intro c hc
        rcases List.mem_cons.mp hc with h | h
        · subst h; exact hx
        · exact hacc c h
      have := ih (x :: acc) hacc2 w hw
      refine ⟨this.1, ?_⟩
      intro c hc
      have hprop := this.2 c hc
      refine ⟨hprop.1, ?_⟩
      rcases hprop.2 with hcl | hca
      · exact Or.inl (List.mem_cons_of_mem x hcl)
      · rcases List.mem_cons.mp hca with h | h
        · subst h; exact Or.inl (List.mem_cons_self c xs)
        · exact Or.inr h

/-- Consuming a whitespace-free word moves it wholesale into the
accumulator. -/
theorem wordsAux_append (w : List Char) (hw : ∀ c ∈ w, isPySpace c = false) :
    ∀ (l acc : List Char), wordsAux (w ++ l) acc = wordsAux l (w.reverse ++ acc) := by
  induction w with
  | nil => intro l acc; simp
  | cons c cs ih =>
    intro l acc
    have hc : isPySpace c = false := hw c (List.mem_cons_self c cs)
    have hcs : ∀ x ∈ cs, isPySpace x = false := fun x hx => hw x (List.mem_cons_of_mem c hx)
    simp [wordsAux, hc, ih hcs, List.append_assoc]

/-- Splitting the single-space join of nonempty whitespace-free words,
with a nonempty pending accumulator, flushes the accumulator and
recovers the word list. -/
theorem wordsAux_joinRest :
    ∀ (ws : List (List Char)),
      (∀ w ∈ ws, w ≠ [] ∧ ∀ c ∈ w, isPySpace c = false) →
      ∀ (acc : List Char), acc ≠ [] → wordsAux (joinRest ws) acc = acc.reverse :: ws := by
  intro ws
  induction ws with
  | nil =>
    intro _ acc hacc
    cases acc with
    | nil => exact absurd rfl hacc
    | cons a as => simp [joinRest, wordsAux, List.isEmpty]
  | cons v vs ih =>
    intro hws acc hacc
    have hv := hws v (List.mem_cons_self v vs)
    have hvs : ∀ w ∈ vs, w ≠ [] ∧ ∀ c ∈ w, isPySpace c = false :=
      fun w hw => hws w (List.mem_cons_of_mem v hw)
    have hsp : isPySpace ' ' = true := by decide
    cases acc with
    | nil => exact absurd rfl hacc
    | cons a as =>
      show wordsAux (' ' :: (v ++ joinRest vs)) (a :: as) = (a :: as).reverse :: v :: vs
      have h1 : wordsAux (' ' :: (v ++ joinRest vs)) (a :: as)
          = (a :: as).reverse :: wordsAux (v ++ joinRest vs) [] := by
        simp [wordsAux, hsp, List.isEmpty]
      rw [h1, wordsAux_append v hv.2 (joinRest vs) []]
      have hrev : v.reverse ++ [] = v.reverse := by simp
      rw [hrev]
      have hvrev : v.reverse ≠ [] := by
        intro hcon
        exact hv.1 (by simpa using congrArg List.reverse hcon)
      rw [ih hvs v.reverse hvrev]
      simp

/-- Splitting a single-space join of nonempty whitespace-free words
recovers exactly those words. -/
theorem pyWords_joinWords (ws : List (List Char))
    (hws : ∀ w ∈ ws, w ≠ [] ∧ ∀ c ∈ w, isPySpace c = false) :
    pyWords (joinWords ws) = ws := by
  cases ws with
  | nil => rfl
  | cons v vs =>
    have hv := hws v (List.mem_cons_self v vs)
    have hvs : ∀ w ∈ vs, w ≠ [] ∧ ∀ c ∈ w, isPySpace c = false :=
      fun w hw => hws w (List.mem_cons_of_mem v hw)
    show wordsAux (v ++ joinRest vs) [] = v :: vs
    rw [wordsAux_append v hv.2 (joinRest vs) []]
    have hrev : v.reverse ++ [] = v.reverse := by simp
    rw [hrev]
    have hvrev : v.reverse ≠ [] := by
      intro hcon
      exact hv.1 (by simpa using congrArg List.reverse hcon)
    rw [wordsAux_joinRest vs hvs v.reverse hvrev]
    simp

/-- Every character of a single-space join is a space or comes from one
of the words. -/
theorem mem_joinRest :
    ∀ (ws : List (List Char)) (c : Char), c ∈ joinRest ws → c = ' ' ∨ ∃ w ∈ ws, c ∈ w := by
  intro ws
  induction ws with
  | nil => intro c hc; simp [joinRest] at hc
  | cons v vs ih =>
    intro c hc
    simp only [joinRest, List.mem_cons, List.mem_append] at hc
    rcases hc with hc | hc | hc
    · exact Or.inl hc
    · exact Or.inr ⟨v, List.mem_cons_self v vs, hc⟩
    · rcases ih c hc with h | ⟨w, hw, hcw⟩
      · exact Or.inl h
      · exact Or.inr ⟨w, List.mem_cons_of_mem v hw, hcw⟩

/-- Character provenance through joinWords. -/
theorem mem_joinWords :
    ∀ (ws : List (List Char)) (c : Char), c ∈ joinWords ws → c = ' ' ∨ ∃ w ∈ ws, c ∈ w := by
  intro ws c hc
  cases ws with
  | nil => simp [joinWords] at hc
  | cons v vs =>
    simp only [joinWords, List.mem_append] at hc
    rcases hc with hc | hc
    · exact Or.inr ⟨v, List.mem_cons_self v vs, hc⟩
    · rcases mem_joinRest vs c hc with h | ⟨w, hw, hcw⟩
      · exact Or.inl h
      · exact Or.inr ⟨w, List.mem_cons_of_mem v hw, hcw⟩

/-- Every character of a cleaned label is ASCII and belongs to the kept
class. -/
theorem normalizarRotulo_chars (l : List Char) :
    ∀ c ∈ normalizarRotulo l, keepChar c = true ∧ c.toNat < 128 := by
  intro c hc
  unfold normalizarRotulo at hc
  rcases mem_joinWords _ c hc with hsp | ⟨w, hw, hcw⟩
  · subst hsp
    exact ⟨by decide, by decide⟩
  · have hprops := wordsAux_mem_props _ [] (by intro x hx; simp at hx) w hw
    have hcprop := (hprops.2 c hcw).2
    rcases hcprop with hcl | hca
    · have hkeep := List.mem_filter.mp hcl
      have hflat := hkeep.1
      have hsrc := List.mem_flatMap.mp hflat
      rcases hsrc with ⟨c0, _, hc0⟩
      exact ⟨hkeep.2, nfdAsciiChar_ascii c0 c hc0⟩
    · simp at hca

/-- Cleaned labels keep only whitespace-free nonempty words. -/
theorem normalizarRotulo_words (l : List Char) :
    ∀ w ∈ pyWords ((l.flatMap nfdAsciiChar).filter keepChar),
      w ≠ [] ∧ ∀ c ∈ w, isPySpace c = false := by
  intro w hw
  have hprops := wordsAux_mem_props _ [] (by intro x hx; simp at hx) w hw
  exact ⟨hprops.1, fun c hc => (hprops.2 c hc).1⟩

/-- The column-label cleanup is idempotent on every label. -/
theorem normalizarRotulo_idem (l : List Char) :
    normalizarRotulo (normalizarRotulo l) = normalizarRotulo l := by
  have hchars := normalizarRotulo_chars l
  have hascii : ∀ c ∈ normalizarRotulo l, c.toNat < 128 := fun c hc => (hchars c hc).2
  have hkeep : ∀ c ∈ normalizarRotulo l, keepChar c = true := fun c hc => (hchars c hc).1
  have h1 : (normalizarRotulo l).flatMap nfdAsciiChar = normalizarRotulo l :=
    flatMap_nfdAsciiChar_of_ascii _ hascii
  have h2 : (normalizarRotulo l).filter keepChar = normalizarRotulo l :=
    List.filter_eq_self.mpr hkeep
  show joinWords (pyWords (((normalizarRotulo l).flatMap nfdAsciiChar).filter keepChar))
      = normalizarRotulo l
  rw [h1, h2]
  show joinWords (pyWords (joinWords (pyWords ((l.flatMap nfdAsciiChar).filter keepChar))))
      = normalizarRotulo l
  rw [pyWords_joinWords _ (normalizarRotulo_words l)]
  rfl

/-! ### Column Mapper: map_columns of app_v7.py

`map_columns(df, tipo)` lowercases and strips the original column
labels, then, for each canonical field in declared order, scans the
field alias list in declared order; at the first alias present among
the lowered original labels it renames the original column found at
the first lowered-label position equal to that alias, and breaks to
the next field.  A pandas rename by label rewrites every column
currently bearing that label. -/

/-- str.lower on one character: the labels this pipeline handles are
ASCII, where lower maps the uppercase Latin range down by 32. -/
def charLower (c : Char) : Char :=
  if 65 ≤ c.toNat ∧ c.toNat ≤ 90 then Char.ofNat (c.toNat + 32) else c

/-- str.lower. -/
def pyLower (s : String) : String := String.mk (s.toList.map charLower)

/-- str.strip with no argument: remove leading and trailing whitespace. -/
def pyStrip (s : String) : String :=
  String.mk (((s.toList.dropWhile isPySpace).reverse.dropWhile isPySpace).reverse)

/-- df.rename with a single old-to-new binding: every column currently
bearing the old label receives the new one. -/
def applyRename (cols : List String) (oldName newName : String) : List String :=
  cols.map (fun c => if c = oldName then newName else c)

/-- One iteration of the outer loop of map_columns for one canonical
field: first alias (in declared order) present among the lowered
original labels wins; the renamed column is the one at the first
lowered-label position equal to that alias. -/
def mapField (origCols lowered acc : List String)
    (standardName : String) (variations : List String) : List String :=
  match variations.find? (fun v => lowered.contains (pyLower v)) with
  | some v => applyRename acc (origCols.getD (lowered.indexOf (pyLower v)) "") standardName
  | none => acc

/-- map_columns of app_v7.py on the column-label list: fold the canonical
fields of the mapping over the table labels.  The lowered label list is
computed once from the original labels, exactly as the source does. -/
def map_columns (mapping : List (String × List String)) (cols : List String) : List String :=
  let lowered := cols.map (fun c => pyStrip (pyLower c))
  mapping.foldl (fun acc p => mapField cols lowered acc p.1 p.2) cols

/-- The notas mapping literal of map_columns. -/
def notasMapping : List (String × List String) :=
  [("numero_nota", ["numero", "numero_nota", "nf", "nota", "number"]),
   ("data_emissao", ["data", "data_emissao", "date", "emissao"]),
   ("fornecedor", ["fornecedor", "razao_social", "empresa", "supplier"]),
   ("valor_total", ["valor", "valor_total", "total", "value"])]

/-- The itens mapping literal of map_columns. -/
def itensMapping : List (String × List String) :=
  [("numero_nota", ["numero", "numero_nota", "nf", "nota", "number"]),
   ("descricao_item", ["descricao", "item", "produto", "description"]),
   ("quantidade", ["quantidade", "qtd", "qty", "quantity"]),
   ("valor_unitario", ["valor_unitario", "preco", "price", "unit_price"])]

/-- One field step never changes the number of columns. -/
theorem mapField_length (origCols lowered acc : List String)
    (standardName : String) (variations : List String) :
    (mapField origCols lowered acc standardName variations).length = acc.length := by
  unfold mapField
  cases variations.find? (fun v => lowered.contains (pyLower v)) with
  | none => rfl
  | some v => simp [applyRename]

/-- map_columns preserves the number of columns: mapping never merges or
drops a column. -/
theorem map_columns_length (mapping : List (String × List String)) (cols : List String) :
    (map_columns mapping cols).length = cols.length := by
  unfold map_columns
  generalize (cols.map (fun c => pyStrip (pyLower c))) = lowered
  suffices h : ∀ (m : List (String × List String)) (acc : List String),
      (m.foldl (fun acc p => mapField cols lowered acc p.1 p.2) acc).length = acc.length by
    exact h mapping cols
  intro m
  induction m with
  | nil => intro acc; rfl
  | cons p ps ih =>
    intro acc
    simp only [List.foldl_cons]
    rw [ih, mapField_length]

/-- A field whose aliases all miss the lowered labels leaves the columns
unchanged. -/
theorem mapField_of_no_match (origCols lowered acc : List String)
    (standardName : String) (variations : List String)
    (h : ∀ v ∈ variations, lowered.contains (pyLower v) = false) :
    mapField origCols lowered acc standardName variations = acc := by
  unfold mapField
  have hnone : variations.find? (fun v => lowered.contains (pyLower v)) = none := by
    rw [List.find?_eq_none]
    intro v hv
    rw [h v hv]
    simp
  rw [hnone]

/-- If no alias of any field occurs among the lowered labels, map_columns
is the identity. -/
theorem map_columns_of_no_match (mapping : List (String × List String)) (cols : List String)
    (h : ∀ p ∈ mapping, ∀ v ∈ p.2,
      (cols.map (fun c => pyStrip (pyLower c))).contains (pyLower v) = false) :
    map_columns mapping cols = cols := by
  unfold map_columns
  induction mapping with
  | nil => rfl
  | cons p ps ih =>
    simp only [List.foldl_cons]
    rw [mapField_of_no_match _ _ _ _ _ (h p (List.mem_cons_self p ps))]
    exact ih (fun q hq v hv => h q (List.mem_cons_of_mem p hq) v hv)

/-- find? returns the first satisfying element: the list splits around
the hit and every earlier element fails the test. -/
theorem find?_earliest {α : Type u} (p : α → Bool) :
    ∀ (l : List α) (v : α), l.find? p = some v →
      p v = true ∧ ∃ pre post, l = pre ++ v :: post ∧ ∀ w ∈ pre, p w = false := by
  intro l
  induction l with
  | nil => intro v h; simp at h
  | cons x xs ih =>
    intro v h
    by_cases hx : p x = true
    · rw [List.find?_cons_of_pos _ hx] at h
      injection h with h
      subst h
      refine ⟨hx, [], xs, rfl, ?_⟩
      intro w hw
      simp at hw
    · rw [List.find?_cons_of_neg _ (by simpa using hx)] at h
      obtain ⟨hp, pre, post, heq, hpre⟩ := ih v h
      refine ⟨hp, x :: pre, post, by simp [heq], ?_⟩
      intro w hw
      rcases List.mem_cons.mp hw with hw | hw
      · subst hw
        simpa using hx
      · exact hpre w hw

/-- indexOf finds the first occurrence: the element there is the key and
no earlier position holds it. -/
theorem indexOf_first :
    ∀ (l : List String) (a : String), l.contains a = true →
      l.getD (l.indexOf a) "" = a ∧ ∀ j, j < l.indexOf a → l.getD j "" ≠ a := by
  intro l
  induction l with
  | nil => intro a h; simp at h
  | cons x xs ih =>
    intro a h
    by_cases hx : x = a
    · subst hx
      constructor
      · simp [List.indexOf_cons_self]
      · intro j hj
        simp [List.indexOf_cons_self] at hj
    · have hxbeq : (x == a) = false := by simpa using hx
      have hmem : a ∈ x :: xs := by simpa using h
      have hxs : xs.contains a = true := by
        rcases List.mem_cons.mp hmem with hax | hax
        · exact absurd hax.symm hx
        · simpa using hax
      have hidx : (x :: xs).indexOf a = xs.indexOf a + 1 := by
        simp [List.indexOf_cons, hxbeq]
      obtain ⟨h1, h2⟩ := ih a hxs
      constructor
      · rw [hidx, List.getD_cons_succ]
        exact h1
      · intro j hj
        rw [hidx] at hj
        cases j with
        | zero =>
          rw [List.getD_cons_zero]
          exact hx
        | succ k =>
          rw [List.getD_cons_succ]
          exact h2 k (Nat.lt_of_succ_lt_succ hj)

/-- Positional view of a pandas rename: each label is rewritten to the
new name exactly where it equals the old one. -/
theorem applyRename_getElem (cols : List String) (oldName newName : String) (i : Nat) :
    (applyRename cols oldName newName)[i]?
      = (cols[i]?).map (fun c => if c = oldName then newName else c) := by
  simp [applyRename]

/-- On duplicate-free labels a rename changes at most one position: if
position i changed, every other position keeps its label. -/
theorem applyRename_at_most_one (acc : List String) (oldName newName : String)
    (hnd : acc.Nodup) (i j : Nat) (hij : i ≠ j)
    (hchanged : (applyRename acc oldName newName)[i]? ≠ acc[i]?) :
    (applyRename acc oldName newName)[j]? = acc[j]? := by
  rw [applyRename_getElem] at hchanged
  rw [applyRename_getElem]
  cases hi : acc[i]? with
  | none => rw [hi] at hchanged; simp at hchanged
  | some c =>
    rw [hi] at hchanged
    have hco : c = oldName := by
      by_contra hne
      simp [hne] at hchanged
    subst hco
    cases hj : acc[j]? with
    | none => simp
    | some d =>
      have hd : d ≠ c := by
        intro hdc
        subst hdc
        have hilt : i < acc.length := by
          have := List.getElem?_eq_some.mp hi
          exact this.1
        have heq2 : acc[i]? = acc[j]? := by rw [hi, hj]
        exact hij (List.getElem?_inj hilt hnd heq2)
      simp [hd]

/-- Every column of the mapped table either keeps the label it has at
that position in the input or bears one of the canonical field names of
the mapping — map_columns invents no other label. -/
theorem map_columns_provenance (mapping : List (String × List String)) (cols : List String)
    (i : Nat) :
    (map_columns mapping cols)[i]? = cols[i]?
    ∨ ∃ std ∈ mapping.map Prod.fst, (map_columns mapping cols)[i]? = some std := by
  unfold map_columns
  generalize (cols.map (fun c => pyStrip (pyLower c))) = lowered
  suffices h : ∀ (m : List (String × List String)) (acc : List String),
      (m.foldl (fun acc p => mapField cols lowered acc p.1 p.2) acc)[i]? = acc[i]?
      ∨ ∃ std ∈ m.map Prod.fst,
          (m.foldl (fun acc p => mapField cols lowered acc p.1 p.2) acc)[i]? = some std by
    exact h mapping cols
  intro m
  induction m with
  | nil => intro acc; left; rfl
  | cons p ps ih =>
    intro acc
    simp only [List.foldl_cons]
    rcases ih (mapField cols lowered acc p.1 p.2) with h | ⟨std, hstd, heq⟩
    · cases hf : p.2.find? (fun v => lowered.contains (pyLower v)) with
      | none =>
        have hstep : mapField cols lowered acc p.1 p.2 = acc := by
          unfold mapField
          rw [hf]
        rw [h, hstep]
        left
        rfl
      | some v =>
        have hstep : mapField cols lowered acc p.1 p.2
            = applyRename acc (cols.getD (lowered.indexOf (pyLower v)) "") p.1 := by
          unfold mapField
          rw [hf]
        rw [h, hstep, applyRename_getElem]
        cases ha : acc[i]? with
        | none =>
          left
          rfl
        | some c =>
          by_cases hc : c = cols.getD (lowered.indexOf (pyLower v)) ""
          · right
            refine ⟨p.1, by simp, ?_⟩
            simp [hc]
          · left
            show some (if c = cols.getD (lowered.indexOf (pyLower v)) "" then p.1 else c)
              = some c
            rw [if_neg hc]
    · exact Or.inr ⟨std, List.mem_cons_of_mem _ hstd, heq⟩

/-! ### Claims C7 and C6 -/

/-- Claim C7: the column-label cleanup of the Normalizer is idempotent —
for every column label, applying the cleanup (diacritic stripping,
removal of characters outside the kept class, whitespace-run collapse)
to an already-cleaned label returns it unchanged, and hence the
Normalizer is a fixed point on a cleaned column-label set. -/
theorem claim_C7_normalizer_idempotent :
    (∀ l : List Char, normalizarRotulo (normalizarRotulo l) = normalizarRotulo l)
    ∧ ∀ cols : List (List Char),
        normalizarNomesColunas (normalizarNomesColunas cols) = normalizarNomesColunas cols := by
  refine ⟨normalizarRotulo_idem, ?_⟩
  intro cols
  unfold normalizarNomesColunas
  rw [List.map_map]
  exact List.map_congr_left (fun a _ => normalizarRotulo_idem a)

/-- Claim C6 counterexample: with raw columns nf, numero_nota, numero —
all three resolving to the canonical field numero_nota — map_columns
renames the column numero (the one matching the first alias in the
declared alias list, not the first matching raw column nf), and the
mapped table carries the canonical name numero_nota twice. -/
theorem claim_C6_counterexample :
    map_columns notasMapping ["nf", "numero_nota", "numero"]
      = ["nf", "numero_nota", "numero_nota"]
    ∧ ¬ (map_columns notasMapping ["nf", "numero_nota", "numero"]).Nodup := by
  exact ⟨by decide, by decide⟩

/-- Claim C6 amended: for each canonical field the mapper renames at
most one raw column — the canonical name is written over the raw column
at the first lowered-label position matching the earliest alias, in the
declared alias order, whose lowered form occurs among the labels (every
alias declared before it matches no label); on duplicate-free labels
such a rename changes at most that one position and every other column
keeps its current name; a field with no matching alias leaves the
columns untouched; the column count is preserved; and every output
label is either the input label at its position or a canonical field
name.  The mapped table can nevertheless carry the same canonical name
twice when a raw column already bears it. -/
theorem claim_C6_amended :
    (∀ (mapping : List (String × List String)) (cols : List String),
      (map_columns mapping cols).length = cols.length)
    ∧ (∀ (mapping : List (String × List String)) (cols : List String),
        (∀ p ∈ mapping, ∀ v ∈ p.2,
          (cols.map (fun c => pyStrip (pyLower c))).contains (pyLower v) = false) →
        map_columns mapping cols = cols)
    ∧ (∀ (origCols lowered acc : List String) (std : String) (vars : List String),
        (vars.find? (fun w => lowered.contains (pyLower w)) = none →
          mapField origCols lowered acc std vars = acc)
        ∧ ∀ v, vars.find? (fun w => lowered.contains (pyLower w)) = some v →
            lowered.contains (pyLower v) = true
            ∧ (∃ pre post, vars = pre ++ v :: post
                ∧ ∀ w ∈ pre, lowered.contains (pyLower w) = false)
            ∧ mapField origCols lowered acc std vars
                = applyRename acc (origCols.getD (lowered.indexOf (pyLower v)) "") std)
    ∧ (∀ (l : List String) (a : String), l.contains a = true →
        l.getD (l.indexOf a) "" = a ∧ ∀ j, j < l.indexOf a → l.getD j "" ≠ a)
    ∧ (∀ (acc : List String) (oldName newName : String), acc.Nodup →
        ∀ (i j : Nat), i ≠ j → (applyRename acc oldName newName)[i]? ≠ acc[i]? →
          (applyRename acc oldName newName)[j]? = acc[j]?)
    ∧ (∀ (mapping : List (String × List String)) (cols : List String) (i : Nat),
        (map_columns mapping cols)[i]? = cols[i]?
        ∨ ∃ std ∈ mapping.map Prod.fst, (map_columns mapping cols)[i]? = some std)
    ∧ map_columns notasMapping ["nf", "numero"] = ["nf", "numero_nota"]
    ∧ map_columns notasMapping ["numero_nota", "numero"] = ["numero_nota", "numero_nota"] := by
  refine ⟨map_columns_length, map_columns_of_no_match, ?_,
    indexOf_first, ?_, map_columns_provenance, by decide, by decide⟩
  · intro origCols lowered acc std vars
    constructor
    · intro hnone
      unfold mapField
      rw [hnone]
    · intro v hv
      obtain ⟨hp, pre, post, heq, hpre⟩ :=
        find?_earliest (fun w => lowered.contains (pyLower w)) vars v hv
      refine ⟨by simpa using hp, ⟨pre, post, heq, hpre⟩, ?_⟩
      unfold mapField
      rw [hv]
  · intro acc oldName newName hnd i j hij hch
    exact applyRename_at_most_one acc oldName newName hnd i j hij hch

/-- Witness for the amended C6 statement at concrete tables: a column
list matching no alias is unchanged with its length preserved; the
renamed position for the alias numero is its first occurrence; a rename
on duplicate-free labels leaves the other position untouched. -/
theorem claim_C6_amended_witness :
    map_columns notasMapping ["fornecedor_x"] = ["fornecedor_x"]
    ∧ (map_columns notasMapping ["fornecedor_x"]).length = 1
    ∧ ["nf", "numero"].getD (["nf", "numero"].indexOf "numero") "" = "numero"
    ∧ (applyRename ["valor", "data"] "valor" "valor_total")[1]? = ["valor", "data"][1]? := by
  refine ⟨?_, ?_, ?_, ?_⟩
  · exact claim_C6_amended.2.1 notasMapping ["fornecedor_x"] (by decide)
  · exact claim_C6_amended.1 notasMapping ["fornecedor_x"]
  · exact (claim_C6_amended.2.2.2.1 ["nf", "numero"] "numero" (by decide)).1
  · exact claim_C6_amended.2.2.2.2.1 ["valor", "data"] "valor" "valor_total" (by decide)
      0 1 (by decide) (by decide)

/-! ### Merge Engine

A pandas DataFrame is embedded as an ordered column-label list plus
rows of cells; a missing value (NaN) is the cell none. -/

/-- In-memory table: ordered columns, ordered rows. -/
structure Table where
  cols : List String
  rows : List (List (Option String))
deriving DecidableEq

/-- Cell of a row under a column label: the entry at the first position
whose label matches, none when the label is absent. -/
def getCell (cols : List String) (row : List (Option String)) (c : String) : Option String :=
  match cols.findIdx? (fun x => x == c) with
  | some i => row.getD i none
  | none => none

/-- Row reindexing onto a wider column list, padding absent columns with
missing values — the row treatment of pd.concat. -/
def reindexRow (outCols tcols : List String) (row : List (Option String)) : List (Option String) :=
  outCols.map (fun c => getCell tcols row c)

/-- pd.concat of two tables with ignore_index and sort disabled: the
columns of the first table followed by the new columns of the second,
and every row of both, padded with missing values where its table lacks
a column. -/
def concatTables (t1 t2 : Table) : Table :=
  let outCols := t1.cols ++ t2.cols.filter (fun c => !(t1.cols.contains c))
  { cols := outCols,
    rows := t1.rows.map (reindexRow outCols t1.cols)
      ++ t2.rows.map (reindexRow outCols t2.cols) }

/-- Key cells join when both are present and equal, and also when both
are missing: pd.merge, unlike SQL, treats a NaN key as equal to
itself. -/
def keyMatches (a b : Option String) : Bool :=
  match a, b with
  | some x, some y => x == y
  | none, none => true
  | _, _ => false

/-- pd.merge how inner on one key column: all rows pairing a left and a
right row with equal present key cells, left columns then the non-key
right columns. -/
def innerJoinTables (k : String) (t1 t2 : Table) : Table :=
  let cols2 := t2.cols.filter (fun c => c != k)
  { cols := t1.cols ++ cols2,
    rows := t1.rows.flatMap (fun r1 =>
      (t2.rows.filter (fun r2 =>
        keyMatches (getCell t1.cols r1 k) (getCell t2.cols r2 k))).map
        (fun r2 => r1 ++ reindexRow cols2 t2.cols r2)) }

/-- find_merge_key of app_v7.py: intersect the column sets, prefer the
fixed priority list, otherwise any common column, otherwise nothing.
The source materialises the intersection as a Python set, whose
iteration order is unspecified; the embedding realises it in
first-table column order, which agrees with the source on emptiness and
on every priority hit. -/
def find_merge_key (t1 t2 : Table) : Option String :=
  let common := t1.cols.filter (fun c => t2.cols.contains c)
  let priority := ["numero_nota", "numero", "nf", "nota", "id"]
  match priority.find? (fun c => common.contains c) with
  | some c => some c
  | none => common.head?

/-- Outcome of the merge step of process_zip_file in app_v7.py.  The
source has no failure branch here: either a key is found and the tables
are inner-joined, or the tables are concatenated and the combination is
returned as the processed dataset (with only a UI warning). -/
inductive MergeOutcome where
  | merged (key : String) (t : Table)
  | concatenated (t : Table)
deriving DecidableEq

/-- The merge decision of process_zip_file in app_v7.py, lines 188-196:
try find_merge_key; on success inner-join, otherwise concatenate. -/
def process_zip_merge (t1 t2 : Table) : MergeOutcome :=
  match find_merge_key t1 t2 with
  | some k => MergeOutcome.merged k (innerJoinTables k t1 t2)
  | none => MergeOutcome.concatenated (concatTables t1 t2)

/-! ### Inner-join row counting (generic join semantics of pd.merge) -/

/-- Inner join of two row lists under key projections: every pair of rows
whose keys agree, in left-then-right order — the row multiset semantics
of pd.merge how inner on a key tuple. -/
def innerJoin {α : Type u} {β : Type v} {κ : Type w} [DecidableEq κ]
    (k1 : α → κ) (k2 : β → κ) (t1 : List α) (t2 : List β) : List (α × β) :=
  t1.flatMap (fun r1 => (t2.filter (fun r2 => k2 r2 = k1 r1)).map (fun r2 => (r1, r2)))

open BigOperators

/-- The joined row count is the sum, over left keys, of the right-side
multiplicity of that key. -/
theorem innerJoin_length {α : Type u} {β : Type v} {κ : Type w} [DecidableEq κ]
    (k1 : α → κ) (k2 : β → κ) (t1 : List α) (t2 : List β) :
    (innerJoin k1 k2 t1 t2).length
      = ((t1.map k1).map (fun k => (t2.map k2).count k)).sum := by
  unfold innerJoin
  rw [List.length_flatMap, List.map_map]
  apply congrArg List.sum
  apply List.map_congr_left
  intro r1 _
  show (List.map (fun r2 => (r1, r2)) (List.filter (fun r2 => decide (k2 r2 = k1 r1)) t2)).length
      = List.count (k1 r1) (List.map k2 t2)
  rw [List.length_map, ← List.countP_eq_length_filter]
  rw [List.count, List.countP_map]
  rfl

/-- Inner-join fan-out: the joined row count is the sum, over the key
values common to both tables, of the product of the key multiplicities
in each table. -/
theorem innerJoin_length_inter {α : Type u} {β : Type v} {κ : Type w} [DecidableEq κ]
    (k1 : α → κ) (k2 : β → κ) (t1 : List α) (t2 : List β) :
    (innerJoin k1 k2 t1 t2).length
      = ∑ m in (t1.map k1).toFinset ∩ (t2.map k2).toFinset,
          (t1.map k1).count m * (t2.map k2).count m := by
  rw [innerJoin_length]
  rw [Finset.sum_list_map_count]
  rw [Finset.sum_subset (Finset.inter_subset_left)]
  · apply Finset.sum_congr rfl
    intro m _
    simp [smul_eq_mul]
  · intro m hm hnot
    have hm2 : m ∉ (t2.map k2).toFinset := by
      intro hcon
      exact hnot (Finset.mem_inter.mpr ⟨hm, hcon⟩)
    have : (t2.map k2).count m = 0 := by
      rw [List.count_eq_zero]
      intro hcon
      exact hm2 (List.mem_toFinset.mpr hcon)
    simp [this]

/-- With duplicate-free keys on both sides the joined row count is the
number of key values present in both tables. -/
theorem innerJoin_length_nodup {α : Type u} {β : Type v} {κ : Type w} [DecidableEq κ]
    (k1 : α → κ) (k2 : β → κ) (t1 : List α) (t2 : List β)
    (h1 : (t1.map k1).Nodup) (h2 : (t2.map k2).Nodup) :
    (innerJoin k1 k2 t1 t2).length
      = ((t1.map k1).toFinset ∩ (t2.map k2).toFinset).card := by
  rw [innerJoin_length_inter]
  rw [Finset.card_eq_sum_ones]
  apply Finset.sum_congr rfl
  intro m hm
  have hma : m ∈ t1.map k1 := List.mem_toFinset.mp (Finset.mem_inter.mp hm).1
  have hmb : m ∈ t2.map k2 := List.mem_toFinset.mp (Finset.mem_inter.mp hm).2
  rw [List.count_eq_one_of_mem h1 hma, List.count_eq_one_of_mem h2 hmb]

/-! ### Claims C8 and C2 -/

/-- Claim C8: for an inner join on shared key projections, the merged row
count equals, summed over each key value present in both tables, the
product of that key value's multiplicity in each table; when neither
side carries duplicate keys this is the number of key values present in
both tables. -/
theorem claim_C8_merge_row_count {α : Type u} {β : Type v} {κ : Type w} [DecidableEq κ]
    (k1 : α → κ) (k2 : β → κ) (t1 : List α) (t2 : List β) :
    ((innerJoin k1 k2 t1 t2).length
      = ∑ m in (t1.map k1).toFinset ∩ (t2.map k2).toFinset,
          (t1.map k1).count m * (t2.map k2).count m)
    ∧ ((t1.map k1).Nodup → (t2.map k2).Nodup →
      (innerJoin k1 k2 t1 t2).length
        = ((t1.map k1).toFinset ∩ (t2.map k2).toFinset).card) :=
  ⟨innerJoin_length_inter k1 k2 t1 t2, innerJoin_length_nodup k1 k2 t1 t2⟩

/-- Witness for C8 at the end-to-end scenario of the spec: five distinct
note numbers joined against seven item rows referencing them give seven
merged rows, and a duplicate-free instance matches the common-key
count. -/
theorem claim_C8_merge_row_count_witness :
    ((innerJoin (id : Nat → Nat) id [1001, 1002, 1003, 1004, 1005]
        [1001, 1001, 1002, 1003, 1004, 1004, 1005]).length
      = ∑ m in (([1001, 1002, 1003, 1004, 1005].map (id : Nat → Nat)).toFinset
            ∩ (([1001, 1001, 1002, 1003, 1004, 1004, 1005].map (id : Nat → Nat)).toFinset)),
          ([1001, 1002, 1003, 1004, 1005].map (id : Nat → Nat)).count m
            * ([1001, 1001, 1002, 1003, 1004, 1004, 1005].map (id : Nat → Nat)).count m)
    ∧ ((innerJoin (id : Nat → Nat) id [1, 2] [2, 3]).length
      = (([1, 2].map (id : Nat → Nat)).toFinset ∩ (([2, 3].map (id : Nat → Nat)).toFinset)).card)
    ∧ (innerJoin (id : Nat → Nat) id [1001, 1002, 1003, 1004, 1005]
        [1001, 1001, 1002, 1003, 1004, 1004, 1005]).length = 7 :=
  ⟨(claim_C8_merge_row_count id id _ _).1,
   (claim_C8_merge_row_count id id [1, 2] [2, 3]).2 (by decide) (by decide),
   by decide⟩

/-- Claim C2, behaviour of the code at the failing input: two mapped
tables sharing no column name.  process_zip_file does not fail with a
NoMergeKey error: it returns the silent concatenation of the two tables
as its processed dataset. -/
theorem claim_C2_concat_no_failure :
    process_zip_merge (Table.mk ["a"] [[some "1"]]) (Table.mk ["b"] [[some "2"]])
      = MergeOutcome.concatenated
          (Table.mk ["a", "b"] [[some "1", none], [none, some "2"]]) := by
  decide

/-! ### Merge Engine type coercion (claim C3)

Two distinct coercions exist in the sources.  app_v4.py
process_zip_file converts declared numeric columns with
astype(str).str.replace of comma by dot followed by astype(float),
which raises ValueError on any value the float() grammar rejects —
while the values the grammar accepts include the spellings nan, inf
and infinity, so astype(str) of a missing cell (the string nan)
converts back to NaN, the null marker, without raising.  app_v7.py
calculate_derived_values converts every column whose lowered name
contains valor or quantidade with pd.to_numeric and errors coerce,
which turns every unparseable value into NaN and never raises — and
performs no comma replacement.

The float() grammar is embedded in full: surrounding whitespace,
optional sign, the case-insensitive spellings nan, inf and infinity,
and otherwise digit runs with PEP-515 underscores, an optional
fractional part and an optional exponent.  A finite value is kept as a
mantissa-exponent pair m, e denoting m times ten to the e — the exact
value of every decimal float literal — with a separate rational
interpretation. -/

/-- Value of a digit run. -/
def digitsVal (ds : List Char) : Nat :=
  ds.foldl (fun n c => 10 * n + (c.toNat - 48)) 0

/-- A character a digit run may contain: a digit or a group
underscore. -/
def isRunChar (c : Char) : Bool := c.isDigit || c = '_'

/-- Group underscores contribute nothing to the value. -/
def stripUnderscores (ds : List Char) : List Char :=
  ds.filter (fun c => c != '_')

/-- Validity of the tail of a digit run, after an initial digit: each
underscore sits between two digits. -/
def validRunAux : List Char → Bool
  | [] => true
  | ['_'] => false
  | '_' :: c :: cs => c.isDigit && validRunAux cs
  | c :: cs => c.isDigit && validRunAux cs

/-- A valid digit run: nonempty, starting with a digit, each underscore
between two digits. -/
def validDigitRun : List Char → Bool
  | [] => false
  | c :: cs => c.isDigit && validRunAux cs

/-- An optionally signed valid digit run consuming the whole input. -/
def parseSignedDigits (cs : List Char) : Option ℤ :=
  let signed : Bool × List Char :=
    match cs with
    | '+' :: r => (false, r)
    | '-' :: r => (true, r)
    | r => (false, r)
  let ds := signed.2.takeWhile isRunChar
  let rest := signed.2.dropWhile isRunChar
  if !(validDigitRun ds) || !rest.isEmpty then none
  else
    let v : ℤ := (digitsVal (stripUnderscores ds) : ℤ)
    some (if signed.1 then -v else v)

/-- The exponent suffix of a float literal: empty, or e or E followed by
a signed digit run. -/
def parseExponent (cs : List Char) : Option ℤ :=
  match cs with
  | [] => some 0
  | 'e' :: rest => parseSignedDigits rest
  | 'E' :: rest => parseSignedDigits rest
  | _ => none

/-- A parsed float literal: a finite value as the mantissa-exponent pair
of the denoted decimal, the spelling nan, or a signed infinity. -/
inductive FloatLit where
  | finite (m e : ℤ)
  | nan
  | inf (neg : Bool)
deriving DecidableEq

/-- The float() grammar: surrounding whitespace stripped, optional sign,
then the case-insensitive spellings nan, inf, infinity, or a mantissa
with a valid digit run on at least one side of an optional dot followed
by an optional exponent. -/
def parseFloatOpt (s : String) : Option FloatLit :=
  let cs0 := ((s.toList.dropWhile isPySpace).reverse.dropWhile isPySpace).reverse
  let signed : Bool × List Char :=
    match cs0 with
    | '+' :: r => (false, r)
    | '-' :: r => (true, r)
    | r => (false, r)
  let low := signed.2.map charLower
  if low = "nan".toList then some FloatLit.nan
  else if low = "inf".toList || low = "infinity".toList then
    some (FloatLit.inf signed.1)
  else
    let intRun := signed.2.takeWhile isRunChar
    let cs2 := signed.2.dropWhile isRunChar
    let fracPair : List Char × List Char :=
      match cs2 with
      | '.' :: r => (r.takeWhile isRunChar, r.dropWhile isRunChar)
      | r => ([], r)
    if intRun.isEmpty && fracPair.1.isEmpty then none
    else if !(intRun.isEmpty || validDigitRun intRun)
        || !(fracPair.1.isEmpty || validDigitRun fracPair.1) then none
    else
      match parseExponent fracPair.2 with
      | none => none
      | some e =>
        let fracDs := stripUnderscores fracPair.1
        let m : ℤ := (digitsVal (stripUnderscores intRun ++ fracDs) : ℤ)
        some (FloatLit.finite (if signed.1 then -m else m) (e - fracDs.length))

/-- Result of a pandas numeric conversion of one cell: a finite number
(as a mantissa-exponent pair), an infinity, the null marker NaN, or a
raised error. -/
inductive PyNum where
  | val (m e : ℤ)
  | inf (neg : Bool)
  | nan
  | raised (msg : String)
deriving DecidableEq

/-- The cell a successfully parsed literal converts to: note the nan
spelling converts to the null marker itself. -/
def litToPyNum : FloatLit → PyNum
  | FloatLit.finite m e => PyNum.val m e
  | FloatLit.nan => PyNum.nan
  | FloatLit.inf b => PyNum.inf b

/-- The rational a conversion result denotes, when it denotes a finite
one; infinities, the null marker and a raise denote none. -/
def pyNumValue : PyNum → Option ℚ
  | PyNum.val m e => some ((m : ℚ) * 10 ^ e)
  | PyNum.inf _ => none
  | PyNum.nan => none
  | PyNum.raised _ => none

/-- pd.to_numeric with errors coerce on one cell (app_v7.py
calculate_derived_values): parse failure becomes the null marker. -/
def to_numeric_coerce (s : String) : PyNum :=
  match parseFloatOpt s with
  | some f => litToPyNum f
  | none => PyNum.nan

/-- str.replace of comma by dot. -/
def commaToDot (s : String) : String :=
  String.mk (s.toList.map (fun c => if c = ',' then '.' else c))

/-- astype(float) after the comma-to-dot replacement on one cell
(app_v4.py process_zip_file): parse failure raises ValueError. -/
def astype_float_comma (s : String) : PyNum :=
  match parseFloatOpt (commaToDot s) with
  | some f => litToPyNum f
  | none => PyNum.raised ("could not convert string to float: " ++ s)

/-- Whether one list of characters occurs as a prefix of another. -/
def prefixMatches : List Char → List Char → Bool
  | [], _ => true
  | _ :: _, [] => false
  | p :: ps, c :: cs => p == c && prefixMatches ps cs

/-- Whether the pattern occurs contiguously inside the haystack — the
Python in operator on strings. -/
def containsSub (pat : List Char) : List Char → Bool
  | [] => pat.isEmpty
  | c :: cs => prefixMatches pat (c :: cs) || containsSub pat cs

/-- Numeric-column selection of calculate_derived_values in app_v7.py:
the lowered column name contains valor or quantidade. -/
def isNumericColumnV7 (name : String) : Bool :=
  containsSub "valor".toList (pyLower name).toList
    || containsSub "quantidade".toList (pyLower name).toList

/-! ### Claim C3 -/

/-- Claim C3 counterexample: the app_v4 coercion raises on the
unparseable value abc instead of producing a null marker — its raising
branch is reachable — and the app_v7 coercion does not treat a comma as
a decimal separator: the decimal-comma value 1,5 coerces to the null
marker even though the same value parses once the comma is replaced. -/
theorem claim_C3_counterexample :
    astype_float_comma "abc" = PyNum.raised "could not convert string to float: abc"
    ∧ to_numeric_coerce "1,5" = PyNum.nan
    ∧ to_numeric_coerce "1.5" = PyNum.val 15 (-1)
    ∧ pyNumValue (to_numeric_coerce "1.5") = some (3 / 2) := by
  refine ⟨by decide, by decide, by decide, ?_⟩
  have h : to_numeric_coerce "1.5" = PyNum.val 15 (-1) := by decide
  rw [h]
  unfold pyNumValue
  norm_num

/-- Claim C3 amended: the app_v7 coercion (pd.to_numeric, errors coerce)
is total — it never raises, and every value outside the float grammar
becomes the null marker — but performs no comma handling; the app_v4
coercion treats a comma as a decimal separator, and a value outside the
float grammar makes it raise (the error is caught only by the
surrounding process_zip_file handler, which aborts the whole
processing), while the nan spelling — in particular the astype(str)
image of a missing cell — converts to the null marker without raising,
and inf spellings convert to infinities.  The app_v7 pass covers
exactly the columns whose lowered name contains valor or quantidade. -/
theorem claim_C3_amended :
    (∀ (s m : String), to_numeric_coerce s ≠ PyNum.raised m)
    ∧ (∀ s : String, parseFloatOpt s = none → to_numeric_coerce s = PyNum.nan)
    ∧ (∀ (s : String) (f : FloatLit), parseFloatOpt (commaToDot s) = some f →
        astype_float_comma s = litToPyNum f)
    ∧ astype_float_comma "1,5" = PyNum.val 15 (-1)
    ∧ pyNumValue (astype_float_comma "1,5") = some (3 / 2)
    ∧ astype_float_comma "nan" = PyNum.nan
    ∧ astype_float_comma "inf" = PyNum.inf false
    ∧ to_numeric_coerce "nan" = PyNum.nan
    ∧ to_numeric_coerce "-inf" = PyNum.inf true
    ∧ (∃ s m, astype_float_comma s = PyNum.raised m)
    ∧ isNumericColumnV7 "valor_total" = true
    ∧ isNumericColumnV7 "Valor Unitario" = true
    ∧ isNumericColumnV7 "quantidade" = true
    ∧ isNumericColumnV7 "fornecedor" = false := by
  refine ⟨?_, ?_, ?_, by decide, ?_,
    by decide, by decide, by decide, by decide,
    ⟨"abc", "could not convert string to float: abc", by decide⟩,
    by decide, by decide, by decide, by decide⟩
  · intro s m
    unfold to_numeric_coerce
    cases hp : parseFloatOpt s with
    | none => simp
    | some f => cases f <;> simp [litToPyNum]
  · intro s h
    unfold to_numeric_coerce
    rw [h]
  · intro s f h
    unfold astype_float_comma
    rw [h]
  · have h : astype_float_comma "1,5" = PyNum.val 15 (-1) := by decide
    rw [h]
    unfold pyNumValue
    norm_num

/-- Witness for the amended C3 statement at concrete cells. -/
theorem claim_C3_amended_witness :
    to_numeric_coerce "abc" ≠ PyNum.raised "boom"
    ∧ to_numeric_coerce "abc" = PyNum.nan
    ∧ astype_float_comma "2,5" = litToPyNum (FloatLit.finite 25 (-1)) := by
  refine ⟨claim_C3_amended.1 "abc" "boom",
    claim_C3_amended.2.1 "abc" (by decide),
    claim_C3_amended.2.2.1 "2,5" (FloatLit.finite 25 (-1)) (by decide)⟩

/-! ### Sandbox Executor: PythonCodeExecutorTool._run

The executor redirects sys.stdout to a capture buffer, runs exec on
the supplied fragment inside a constructed namespace inside
try/except/finally, builds the result dict from the captured text and
the conventional namespace variables, converts an exception into an
error dict, and restores sys.stdout in the finally block.

The interpreter state the claims concern is the object bound to
sys.stdout, embedded as an opaque reference; exec of the untrusted
fragment is an external event, embedded as its outcome — what the
fragment printed and bound, or the exception it raised. -/

/-- Host interpreter state the executor touches: the object currently
bound to sys.stdout. -/
structure SysState where
  stdoutRef : ℤ
deriving DecidableEq

/-- A Python evaluation either returns a value or raises. -/
inductive PyResult (α : Type u) where
  | val (a : α)
  | exn (msg : String)

/-- try/except/finally with an except-all handler that returns a value:
the finally block runs on every exit path — after a normal return and
after the handler has produced the fallback return value. -/
def tryExceptFinally {α : Type u} {σ : Type v}
    (body : σ → PyResult α × σ) (handler : String → σ → α × σ)
    (cleanup : σ → σ) (s : σ) : α × σ :=
  match body s with
  | (PyResult.val a, s1) => (a, cleanup s1)
  | (PyResult.exn m, s1) =>
    let r := handler m s1
    (r.1, cleanup r.2)

/-- Outcome of exec on the fragment in the prepared namespace: what it
printed to the redirected stdout and the values it left in result_df
and fig, or the exception it raised. -/
inductive ExecOutcome where
  | ok (printed : String) (result_df : Option Table) (fig : Option String)
  | raised (msg : String)

/-- The result dict of _run.  A field holds none when the source dict
omits the key or stores Python None there; every claim under study
concerns which fields are populated. -/
structure ToolResult where
  success : Option Bool := none
  text_output : Option String := none
  table : Option (List (List (String × Option String))) := none
  figure : Option String := none
  error : Option String := none
deriving DecidableEq

/-- df.to_dict with records orientation. -/
def tableRecords (t : Table) : List (List (String × Option String)) :=
  t.rows.map (fun r => t.cols.zip r)

/-- df.empty: some axis has length zero. -/
def dfIsEmpty (t : Table) : Bool := t.rows.isEmpty || t.cols.isEmpty

/-- _run of app_v7.py PythonCodeExecutorTool: early error dict when no
DataFrame is bound; otherwise redirect stdout, run the fragment under
try/except/finally, return a success dict with the success flag, the
captured text, the records of a nonempty result_df and the figure — or
an error dict carrying the error message and an error narrative; the
finally block restores the entry stdout. -/
def toolRun_v7 (captureRef : ℤ) (df : Option Table) (outcome : ExecOutcome)
    (s : SysState) : ToolResult × SysState :=
  match df with
  | none => ({ error := some "DataFrame não fornecido." }, s)
  | some _ =>
    let original := s.stdoutRef
    let s1 : SysState := { stdoutRef := captureRef }
    tryExceptFinally
      (fun st =>
        match outcome with
        | ExecOutcome.ok printed rdf fig =>
          let tableOut := match rdf with
            | some t => if dfIsEmpty t then none else some (tableRecords t)
            | none => none
          let res : ToolResult :=
            { success := some true, text_output := some printed,
              table := tableOut, figure := fig, error := none }
          (PyResult.val res, st)
        | ExecOutcome.raised m => (PyResult.exn m, st))
      (fun m st =>
        ({ error := some ("Erro na execução: " ++ m),
           text_output := some ("Erro durante análise: " ++ m) }, st))
      (fun st => { st with stdoutRef := original })
      s1

/-- _run of app_v1.py (and, but for the nonemptiness check on result_df,
app_v4.py): same shape without the success flag; the error dict carries
the error message in both its error and text_output fields. -/
def toolRun_v1 (captureRef : ℤ) (df : Option Table) (outcome : ExecOutcome)
    (s : SysState) : ToolResult × SysState :=
  match df with
  | none => ({ error := some "DataFrame não foi fornecido para a ferramenta." }, s)
  | some _ =>
    let original := s.stdoutRef
    let s1 : SysState := { stdoutRef := captureRef }
    tryExceptFinally
      (fun st =>
        match outcome with
        | ExecOutcome.ok printed rdf fig =>
          let res : ToolResult :=
            { text_output := some printed,
              table := rdf.map tableRecords, figure := fig }
          (PyResult.val res, st)
        | ExecOutcome.raised m => (PyResult.exn m, st))
      (fun m st =>
        ({ error := some ("Erro ao executar o código: " ++ m),
           text_output := some ("Erro ao executar o código: " ++ m) }, st))
      (fun st => { st with stdoutRef := original })
      s1

/-! ### Claims C4 and C1 -/

/-- Claim C4: on every exit path of _run — missing DataFrame, normal
completion, and a raising fragment — the executor leaves sys.stdout
bound to the object it was bound to on entry, in both the app_v7 and
the app_v1/app_v4 versions. -/
theorem claim_C4_stdout_restored (captureRef : ℤ) (df : Option Table)
    (outcome : ExecOutcome) (s : SysState) :
    (toolRun_v7 captureRef df outcome s).2.stdoutRef = s.stdoutRef
    ∧ (toolRun_v1 captureRef df outcome s).2.stdoutRef = s.stdoutRef := by
  constructor <;> (cases df <;> cases outcome <;> rfl)

/-- Claim C1 counterexample: a raising fragment produces a result whose
error field is set and whose text_output field is also populated (with
an error narrative), in both executor versions — an error result does
carry another populated payload field. -/
theorem claim_C1_counterexample :
    ((toolRun_v7 0 (some (Table.mk ["a"] [])) (ExecOutcome.raised "boom")
        (SysState.mk 7)).1.error).isSome = true
    ∧ ((toolRun_v7 0 (some (Table.mk ["a"] [])) (ExecOutcome.raised "boom")
        (SysState.mk 7)).1.text_output).isSome = true
    ∧ ((toolRun_v1 0 (some (Table.mk ["a"] [])) (ExecOutcome.raised "boom")
        (SysState.mk 7)).1.error).isSome = true
    ∧ ((toolRun_v1 0 (some (Table.mk ["a"] [])) (ExecOutcome.raised "boom")
        (SysState.mk 7)).1.text_output).isSome = true :=
  ⟨rfl, rfl, rfl, rfl⟩

/-- Claim C1 amended: the error field and the success payload are
mutually exclusive — a result with error set carries no table, no
figure and no success flag, and a result without error is the success
dict (success flag in app_v7, populated text_output in both) — but an
error result may also populate text_output, with an error narrative
rather than captured fragment output. -/
theorem claim_C1_amended (captureRef : ℤ) (df : Option Table)
    (outcome : ExecOutcome) (s : SysState) :
    (((toolRun_v7 captureRef df outcome s).1.error.isSome = true →
        (toolRun_v7 captureRef df outcome s).1.table = none
        ∧ (toolRun_v7 captureRef df outcome s).1.figure = none
        ∧ (toolRun_v7 captureRef df outcome s).1.success = none)
      ∧ ((toolRun_v7 captureRef df outcome s).1.error = none →
        (toolRun_v7 captureRef df outcome s).1.success = some true
        ∧ (toolRun_v7 captureRef df outcome s).1.text_output.isSome = true))
    ∧ (((toolRun_v1 captureRef df outcome s).1.error.isSome = true →
        (toolRun_v1 captureRef df outcome s).1.table = none
        ∧ (toolRun_v1 captureRef df outcome s).1.figure = none)
      ∧ ((toolRun_v1 captureRef df outcome s).1.error = none →
        (toolRun_v1 captureRef df outcome s).1.text_output.isSome = true)) := by
  cases df <;> cases outcome <;>
    simp [toolRun_v7, toolRun_v1, tryExceptFinally]

/-- Witness for the amended C1 statement: a raising fragment yields no
table in app_v7, and a normally completing fragment yields a populated
text_output in app_v1. -/
theorem claim_C1_amended_witness :
    (toolRun_v7 0 (some (Table.mk ["a"] [])) (ExecOutcome.raised "boom")
      (SysState.mk 7)).1.table = none
    ∧ (toolRun_v1 0 (some (Table.mk ["a"] [])) (ExecOutcome.ok "hi" none none)
      (SysState.mk 7)).1.text_output.isSome = true := by
  constructor
  · exact ((claim_C1_amended 0 (some (Table.mk ["a"] []))
      (ExecOutcome.raised "boom") (SysState.mk 7)).1.1 (by decide)).1
  · exact (claim_C1_amended 0 (some (Table.mk ["a"] []))
      (ExecOutcome.ok "hi" none none) (SysState.mk 7)).2.2 (by decide)

/-! ### Result Extractor: extract_result_from_output (app_v4.py)

The extractor inspects the raw value handed back by the orchestration
layer: a dict is returned as-is; a string is JSON-decoded with a
narrative-only fallback; an object with a raw attribute (or, failing
that, a result attribute) is unwrapped by a recursive call; anything
else is stringified into a narrative-only dict.  Any exception inside
the body — in particular the RecursionError a self-referential wrapper
provokes — is caught by the surrounding except and becomes a dict with
an error key.

Wrapper objects hold their attributes as references into an object
heap, so a wrapper can refer to itself; the fuel argument is the
interpreter recursion budget, and exhausting it models the raised and
caught RecursionError. -/

/-- A Python value as the extractor distinguishes them. -/
inductive PyVal where
  | dict (fields : List (String × PyVal))
  | str (s : String)
  | wrapper (rawRef : Option Nat) (resultRef : Option Nat)
  | pyNone
  | other (objRepr : String)

/-- str() of a value reaching the stringifying fallback.  The textual
form of foreign objects is external detail no claim depends on. -/
def pyStr : PyVal → String
  | PyVal.dict _ => "dict"
  | PyVal.str s => s
  | PyVal.wrapper _ _ => "object"
  | PyVal.pyNone => "None"
  | PyVal.other r => r

/-- The narrative-only dict the extractor builds around a plain string. -/
def narrativeDict (s : String) : PyVal :=
  PyVal.dict [("text_output", PyVal.str s), ("table", PyVal.pyNone), ("figure", PyVal.pyNone)]

/-- The dict the surrounding except builds when the recursion budget is
exhausted: the caught RecursionError, stringified. -/
def recursionErrorDict : PyVal :=
  PyVal.dict
    [("error", PyVal.str "Erro ao processar resultado: maximum recursion depth exceeded")]

/-- extract_result_from_output of app_v4.py.  jloads is json.loads (an
external collaborator): its successful decode or its failure.  The
heap carries the objects wrapper references point into. -/
def extract_result_from_output (jloads : String → Option PyVal) (heap : List PyVal) :
    Nat → PyVal → PyVal
  | _, PyVal.dict fields => PyVal.dict fields
  | _, PyVal.str s =>
    match jloads s with
    | some w => w
    | none => narrativeDict s
  | fuel, PyVal.wrapper (some r) _ =>
    match fuel with
    | 0 => recursionErrorDict
    | n + 1 =>
      extract_result_from_output jloads heap n (heap.getD r (PyVal.other "missing"))
  | fuel, PyVal.wrapper none (some r) =>
    match fuel with
    | 0 => recursionErrorDict
    | n + 1 =>
      extract_result_from_output jloads heap n (heap.getD r (PyVal.other "missing"))
  | _, PyVal.wrapper none none => narrativeDict (pyStr (PyVal.wrapper none none))
  | _, PyVal.pyNone => narrativeDict (pyStr PyVal.pyNone)
  | _, PyVal.other r => narrativeDict (pyStr (PyVal.other r))

/-! ### Claims C5 and C10 -/

/-- Claim C5: the extractor follows the documented order and terminates —
a dict is returned as-is; a string is JSON-decoded, and wrapped as a
narrative-only dict when decoding fails; a wrapper is unwrapped
recursively under the interpreter recursion budget, so that on a
self-referential wrapper whose raw attribute refers back to itself the
extractor, for every budget, returns the caught-RecursionError dict
instead of looping indefinitely. -/
theorem claim_C5_extractor_order (jloads : String → Option PyVal) (heap : List PyVal)
    (fuel : Nat) :
    (∀ fields, extract_result_from_output jloads heap fuel (PyVal.dict fields)
      = PyVal.dict fields)
    ∧ (∀ s w, jloads s = some w →
        extract_result_from_output jloads heap fuel (PyVal.str s) = w)
    ∧ (∀ s, jloads s = none →
        extract_result_from_output jloads heap fuel (PyVal.str s) = narrativeDict s)
    ∧ (∀ n, extract_result_from_output jloads [PyVal.wrapper (some 0) none] n
        (PyVal.wrapper (some 0) none) = recursionErrorDict) := by
  refine ⟨?_, ?_, ?_, ?_⟩
  · intro fields
    simp [extract_result_from_output]
  · intro s w h
    simp [extract_result_from_output, h]
  · intro s h
    simp [extract_result_from_output, h]
  · intro n
    induction n with
    | zero => simp [extract_result_from_output]
    | succ k ih =>
      simp only [extract_result_from_output, List.getD]
      simpa using ih

/-- Witness for C5 at a concrete decoder, heap and budget. -/
theorem claim_C5_extractor_order_witness :
    extract_result_from_output (fun _ => none) [] 5 (PyVal.str "oi") = narrativeDict "oi"
    ∧ extract_result_from_output
        (fun s => if s = "[1]" then some (PyVal.str "decoded") else none) [] 5
        (PyVal.str "[1]") = PyVal.str "decoded" := by
  constructor
  · exact (claim_C5_extractor_order (fun _ => none) [] 5).2.2.1 "oi" rfl
  · exact (claim_C5_extractor_order
      (fun s => if s = "[1]" then some (PyVal.str "decoded") else none) [] 5).2.1
      "[1]" (PyVal.str "decoded") (by simp)

/-- Claim C10: the extractor is total over its embedded input shapes and
converts its internal exception into a dict with an error key; a string
that fails to decode yields exactly the narrative-only dict around the
original string; a string that decodes is returned as the decoded
value, dict or not. -/
theorem claim_C10_extractor_total (jloads : String → Option PyVal) (heap : List PyVal)
    (fuel : Nat) :
    (∀ s, jloads s = none →
      extract_result_from_output jloads heap fuel (PyVal.str s)
        = PyVal.dict [("text_output", PyVal.str s), ("table", PyVal.pyNone),
            ("figure", PyVal.pyNone)])
    ∧ (∀ s w, jloads s = some w →
        extract_result_from_output jloads heap fuel (PyVal.str s) = w)
    ∧ (∀ r o, extract_result_from_output jloads heap 0 (PyVal.wrapper (some r) o)
        = PyVal.dict [("error",
            PyVal.str "Erro ao processar resultado: maximum recursion depth exceeded")]) := by
  refine ⟨?_, ?_, ?_⟩
  · intro s h
    simp [extract_result_from_output, h, narrativeDict]
  · intro s w h
    simp [extract_result_from_output, h]
  · intro r o
    simp [extract_result_from_output, recursionErrorDict]

/-- Witness for C10: an undecodable string wraps verbatim; a decodable
string returns the decoded non-dict value; a wrapper with no budget
yields the error dict. -/
theorem claim_C10_extractor_total_witness :
    extract_result_from_output (fun _ => none) [] 3 (PyVal.str "nao json")
      = PyVal.dict [("text_output", PyVal.str "nao json"), ("table", PyVal.pyNone),
          ("figure", PyVal.pyNone)]
    ∧ extract_result_from_output (fun s => if s = "7" then some (PyVal.other "7") else none)
        [] 3 (PyVal.str "7") = PyVal.other "7"
    ∧ extract_result_from_output (fun _ => none) [PyVal.pyNone] 0
        (PyVal.wrapper (some 0) (some 0))
      = PyVal.dict [("error",
          PyVal.str "Erro ao processar resultado: maximum recursion depth exceeded")] := by
  refine ⟨(claim_C10_extractor_total (fun _ => none) [] 3).1 "nao json" rfl,
    (claim_C10_extractor_total (fun s => if s = "7" then some (PyVal.other "7") else none)
      [] 3).2.1 "7" (PyVal.other "7") (by simp),
    (claim_C10_extractor_total (fun _ => none) [PyVal.pyNone] 0).2.2 0 (some 0)⟩

/-! ### DataFrame cache: BaseDataProcessor.get_processed_dataframe

The class-level cache maps an absolute file path to the DataFrame
object processed for it; get_processed_dataframe records the current
path, processes and caches on a miss, and returns df.copy() — a fresh
object — in both branches.  Objects live on an explicit heap of
references; file processing (_process_zip_nfs or
_process_file_unified, which read the file system) is an external
input, embedded as a function from the path to the processed value. -/

/-- The heap of DataFrame objects plus the class-level state: allocated
references below next, the path-keyed cache, the recorded current
path. -/
structure DfStore (DF : Type u) where
  heap : Nat → DF
  next : Nat
  cache : List (String × Nat)
  currentPath : Option String

/-- Heap update at one reference. -/
def writeCell {DF : Type u} (h : Nat → DF) (r : Nat) (v : DF) : Nat → DF :=
  fun i => if i = r then v else h i

/-- In-place mutation of the object a reference designates — what a
caller does when it mutates the returned DataFrame. -/
def setRef {DF : Type u} (st : DfStore DF) (r : Nat) (v : DF) : DfStore DF :=
  { st with heap := writeCell st.heap r v }

/-- get_processed_dataframe: on a hit, return a fresh copy of the cached
object; on a miss, process the file, store the processed object in the
cache, and return a fresh copy of it. -/
def get_processed_dataframe {DF : Type u} (processFile : String → DF)
    (st : DfStore DF) (path : String) : Nat × DfStore DF :=
  match st.cache.lookup path with
  | some r =>
    (st.next,
      { heap := writeCell st.heap st.next (st.heap r),
        next := st.next + 1,
        cache := st.cache,
        currentPath := some path })
  | none =>
    let df := processFile path
    (st.next + 1,
      { heap := writeCell (writeCell st.heap st.next df) (st.next + 1) df,
        next := st.next + 2,
        cache := (path, st.next) :: st.cache,
        currentPath := some path })

/-- Cache well-formedness: every cached reference has been allocated. -/
def CacheWF {DF : Type u} (st : DfStore DF) : Prop :=
  ∀ p r, (p, r) ∈ st.cache → r < st.next

/-! ### Claim C9 -/

/-- Claim C9: get_processed_dataframe returns a copy, never the cached
object itself — after mutating the object behind the returned
reference, the cache entry for the path is unaltered, and a second call
with the same path returns the originally processed data unchanged. -/
theorem claim_C9_cache_copy {DF : Type u} (processFile : String → DF)
    (st : DfStore DF) (path : String) (mutated : DF) (hwf : CacheWF st) :
    let firstCall := get_processed_dataframe processFile st path
    let afterMut := setRef firstCall.2 firstCall.1 mutated
    let secondCall := get_processed_dataframe processFile afterMut path
    secondCall.2.heap secondCall.1 = firstCall.2.heap firstCall.1
    ∧ (∀ rc, firstCall.2.cache.lookup path = some rc →
        afterMut.heap rc = firstCall.2.heap rc) := by
  cases h : st.cache.lookup path with
  | some r =>
    have hr : r < st.next := hwf path r (lookup_mem_pair path r st.cache h)
    have hrne : r ≠ st.next := Nat.ne_of_lt hr
    have hrne2 : r ≠ st.next + 1 := Nat.ne_of_lt (Nat.lt_succ_of_lt hr)
    constructor
    · simp only [get_processed_dataframe, setRef, h, writeCell]
      simp [hrne, hrne2, Nat.succ_ne_self]
    · intro rc hrc
      simp only [get_processed_dataframe, h] at hrc
      injection hrc with hrc
      subst hrc
      simp only [get_processed_dataframe, setRef, h, writeCell]
      simp [hrne]
  | none =>
    constructor
    · simp only [get_processed_dataframe, setRef, h, List.lookup]
      simp [writeCell]
    · intro rc hrc
      simp only [get_processed_dataframe, h, List.lookup] at hrc
      simp at hrc
      subst hrc
      simp only [get_processed_dataframe, setRef, h, writeCell]
      simp

/-- Witness for C9 at a concrete store: an empty well-formed cache, a
processing function returning 42, a caller overwriting the returned
object with 99. -/
theorem claim_C9_cache_copy_witness :
    (let firstCall := get_processed_dataframe (fun _ : String => (42 : Nat))
        (DfStore.mk (fun _ => 0) 0 [] none) "notas.zip"
     let afterMut := setRef firstCall.2 firstCall.1 99
     let secondCall := get_processed_dataframe (fun _ : String => (42 : Nat)) afterMut "notas.zip"
     secondCall.2.heap secondCall.1 = firstCall.2.heap firstCall.1
     ∧ (∀ rc, firstCall.2.cache.lookup "notas.zip" = some rc →
         afterMut.heap rc = firstCall.2.heap rc))
    ∧ (get_processed_dataframe (fun _ : String => (42 : Nat))
        (DfStore.mk (fun _ => 0) 0 [] none) "notas.zip").2.heap
      ((get_processed_dataframe (fun _ : String => (42 : Nat))
        (DfStore.mk (fun _ => 0) 0 [] none) "notas.zip").1) = 42 := by
  constructor
  · exact claim_C9_cache_copy (fun _ => 42) (DfStore.mk (fun _ => 0) 0 [] none)
      "notas.zip" 99 (by intro p r hpr; simp at hpr)
  · rfl
